import Mathlib

/-!
Shallow embedding of `cookbook/slackbot/tools.py` (Marvin repository).

The Python module defines four tools:
information dispatch (`get_info` over `tool_map`), release-notes fetching
(`get_latest_release_notes`), vector-store search
(`search_prefect_2x_docs` / `search_prefect_3x_docs`), and code-example
retrieval (`get_prefect_code_example`).

External effects (HTTP bodies, the secret store, the vector-store backend and
the classifier) are passed in as explicit parameters; Python exceptions are
modelled with `Except` over the `Err` type below.
-/

namespace Marvin

/-- Python exception kinds that the embedded code can raise:
`keyError` for `dict[missing]`, `indexError` for `list[out_of_range]`,
`valueError msg` for `raise ValueError(msg)`. -/
inductive Err where
  | keyError : Err
  | indexError : Err
  | valueError : String → Err
deriving DecidableEq, Repr

/-- Boolean test that `d` is a prefix of `s` (character lists). -/
def startsWith : List Char → List Char → Bool
  | [], _ => true
  | _ :: _, [] => false
  | d :: ds, s :: ss => d == s && startsWith ds ss

/-- Index of the leftmost occurrence of `d` in `s`, as Python `s.find(d)`
(returning `none` instead of `-1`). -/
def findSub (d : List Char) : List Char → Option Nat
  | [] => if startsWith d [] then some 0 else none
  | c :: ss =>
    if startsWith d (c :: ss) then some 0
    else (findSub d ss).map (· + 1)

theorem startsWith_length {d s : List Char} (h : startsWith d s = true) :
    d.length ≤ s.length := by
  induction d generalizing s with
  | nil => simp
  | cons a as ih =>
    cases s with
    | nil => simp [startsWith] at h
    | cons b bs =>
      simp only [startsWith, Bool.and_eq_true] at h
      simpa using ih h.2

theorem startsWith_iff_append {d s : List Char} :
    startsWith d s = true ↔ ∃ r, s = d ++ r := by
  induction d generalizing s with
  | nil => simp [startsWith]
  | cons a as ih =>
    cases s with
    | nil =>
      simp [startsWith]
    | cons b bs =>
      simp only [startsWith, Bool.and_eq_true, beq_iff_eq, ih, List.cons_append,
        List.cons.injEq]
      constructor
      · rintro ⟨rfl, r, rfl⟩; exact ⟨r, rfl, rfl⟩
      · rintro ⟨r, rfl, rfl⟩; exact ⟨rfl, r, rfl⟩

theorem findSub_bound {d : List Char} : ∀ {s : List Char} {i : Nat},
    findSub d s = some i → i + d.length ≤ s.length := by
  intro s
  induction s with
  | nil =>
    intro i h
    simp only [findSub] at h
    split at h
    · rename_i hs
      cases h
      simpa using startsWith_length hs
    · cases h
  | cons c ss ih =>
    intro i h
    simp only [findSub] at h
    split at h
    · rename_i hs
      cases h
      simpa using startsWith_length hs
    · rename_i hs
      rcases Option.map_eq_some'.mp h with ⟨j, hj, rfl⟩
      have := ih hj
      simp only [List.length_cons]
      omega

theorem findSub_startsWith {d : List Char} : ∀ {s : List Char} {i : Nat},
    findSub d s = some i → startsWith d (s.drop i) = true := by
  intro s
  induction s with
  | nil =>
    intro i h
    simp only [findSub] at h
    split at h
    · rename_i hs; cases h; simpa using hs
    · cases h
  | cons c ss ih =>
    intro i h
    simp only [findSub] at h
    split at h
    · rename_i hs; cases h; simpa using hs
    · rename_i hs
      rcases Option.map_eq_some'.mp h with ⟨j, hj, rfl⟩
      simpa using ih hj

theorem findSub_min {d : List Char} : ∀ {s : List Char} {i : Nat},
    findSub d s = some i → ∀ j, j < i → startsWith d (s.drop j) = false := by
  intro s
  induction s with
  | nil =>
    intro i h j hj
    simp only [findSub] at h
    split at h
    · cases h; omega
    · cases h
  | cons c ss ih =>
    intro i h j hj
    simp only [findSub] at h
    split at h
    · cases h; omega
    · rename_i hs
      rcases Option.map_eq_some'.mp h with ⟨k, hk, rfl⟩
      cases j with
      | zero => simpa using hs
      | succ j =>
        have := ih hk j (by omega)
        simpa using this

theorem findSub_none {d : List Char} : ∀ {s : List Char},
    findSub d s = none → ∀ j, startsWith d (s.drop j) = false := by
  intro s
  induction s with
  | nil =>
    intro h j
    simp only [findSub] at h
    split at h
    · cases h
    · rename_i hs
      simpa [List.drop_nil] using hs
  | cons c ss ih =>
    intro h j
    simp only [findSub] at h
    split at h
    · cases h
    · rename_i hs
      rw [Option.map_eq_none'] at h
      cases j with
      | zero => simpa using hs
      | succ j => simpa using ih h j

/-- Python `s.split(d)` on character lists, for a non-empty separator `d`:
repeatedly cut at the leftmost occurrence of `d`.  (Python raises on an empty
separator; that case is mapped to `[s]` and is never used below.) -/
def pySplit (d : List Char) (s : List Char) : List (List Char) :=
  if hd : d = [] then [s]
  else
    match hf : findSub d s with
    | none => [s]
    | some i => s.take i :: pySplit d (s.drop (i + d.length))
termination_by s.length
decreasing_by
  have h1 := findSub_bound hf
  have h2 : d.length ≠ 0 := fun h => hd (List.eq_nil_of_length_eq_zero h)
  simp only [List.length_drop]
  omega

theorem pySplit_none {d s : List Char} (hd : d ≠ []) (h : findSub d s = none) :
    pySplit d s = [s] := by
  rw [pySplit]
  simp only [dif_neg hd]
  split
  · rfl
  · rename_i i hf
    rw [h] at hf
    cases hf

theorem pySplit_some {d s : List Char} {i : Nat} (hd : d ≠ [])
    (h : findSub d s = some i) :
    pySplit d s = s.take i :: pySplit d (s.drop (i + d.length)) := by
  rw [pySplit]
  simp only [dif_neg hd]
  split
  · rename_i hf
    rw [h] at hf
    cases hf
  · rename_i j hf
    rw [h] at hf
    obtain rfl : i = j := Option.some.inj hf
    rfl

/-- All positions at which `d` occurs in `s` (ascending, since `List.range`
is ascending and `filter` preserves order). -/
def occurrences (d s : List Char) : List Nat :=
  (List.range (s.length + 1)).filter (fun p => startsWith d (s.drop p))

theorem occurrences_nil (d : List Char) :
    occurrences d [] = if startsWith d [] then [0] else [] := by
  unfold occurrences
  simp [List.range_succ_eq_map, List.filter_cons]

theorem occurrences_cons (d : List Char) (c : Char) (ss : List Char) :
    occurrences d (c :: ss) =
      if startsWith d (c :: ss) then 0 :: (occurrences d ss).map (· + 1)
      else (occurrences d ss).map (· + 1) := by
  have hfun : (fun p : Nat => startsWith d (List.drop p (c :: ss))) ∘ Nat.succ
      = fun p : Nat => startsWith d (List.drop p ss) := by
    funext p
    simp [Function.comp]
  unfold occurrences
  simp only [List.length_cons, List.range_succ_eq_map, List.filter_cons,
    List.filter_map, hfun, List.drop_zero]

theorem occurrences_head (d : List Char) :
    ∀ s : List Char, (occurrences d s).head? = findSub d s := by
  intro s
  induction s with
  | nil =>
    rw [occurrences_nil]
    unfold findSub
    split <;> simp_all
  | cons c ss ih =>
    rw [occurrences_cons]
    unfold findSub
    split
    · simp
    · simp [List.head?_map, ih]

theorem occurrences_shift (d : List Char) :
    ∀ (k : Nat) (s : List Char),
      (∀ j, j < k → startsWith d (s.drop j) = false) →
      occurrences d s = (occurrences d (s.drop k)).map (· + k) := by
  intro k
  induction k with
  | zero =>
    intro s _
    simp
  | succ k ih =>
    intro s hs
    have h0 : startsWith d s = false := by
      have := hs 0 (by omega)
      simpa using this
    cases s with
    | nil =>
      rw [occurrences_nil]
      simp only [List.drop_nil]
      rw [occurrences_nil]
      simp_all
    | cons c ss =>
      rw [occurrences_cons]
      rw [if_neg (by simp [h0])]
      have hss : ∀ j, j < k → startsWith d (ss.drop j) = false := by
        intro j hj
        have := hs (j + 1) (by omega)
        simpa using this
      rw [ih ss hss]
      simp only [List.map_map, List.drop_succ_cons]
      congr 1

/-- The markdown level-2 heading delimiter "\n## " that
`get_latest_release_notes` splits on. -/
def RELEASE_DELIM : List Char := ['\n', '#', '#', ' ']

theorem startsWith_head_ne {a b : Char} {as bs : List Char} (h : a ≠ b) :
    startsWith (a :: as) (b :: bs) = false := by
  have hab : (a == b) = false := beq_eq_false_iff_ne.mpr h
  simp [startsWith, hab]

/-- The delimiter "\n## " has no nontrivial self-overlap: a second occurrence
cannot begin strictly inside an earlier one. -/
theorem delim_no_overlap {s : List Char} {p j : Nat}
    (hp : startsWith RELEASE_DELIM (s.drop p) = true)
    (h1 : p < j) (h2 : j < p + 4) :
    startsWith RELEASE_DELIM (s.drop j) = false := by
  rcases startsWith_iff_append.mp hp with ⟨r, hr⟩
  have hdj : s.drop j = List.drop (j - p) (s.drop p) := by
    rw [List.drop_drop]
    congr 1
    omega
  rw [hdj, hr]
  have hk : j - p = 1 ∨ j - p = 2 ∨ j - p = 3 := by omega
  rcases hk with hk | hk | hk <;>
    rw [hk] <;>
    simp only [RELEASE_DELIM, List.cons_append, List.drop_succ_cons,
      List.drop_zero, List.nil_append] <;>
    exact startsWith_head_ne (by decide)

theorem occurrences_tail {s : List Char} {p : Nat} {t : List Nat}
    (h : occurrences RELEASE_DELIM s = p :: t) :
    t = (occurrences RELEASE_DELIM (s.drop (p + 4))).map (· + (p + 4)) := by
  have hhead : findSub RELEASE_DELIM s = some p := by
    rw [← occurrences_head, h]
    rfl
  have hmin : ∀ j, j < p → startsWith RELEASE_DELIM (s.drop j) = false :=
    fun j hj => findSub_min hhead j hj
  have hshift := occurrences_shift RELEASE_DELIM p s hmin
  rw [h] at hshift
  set s1 := s.drop p with hs1
  obtain ⟨q, t1, hq⟩ : ∃ q t1, occurrences RELEASE_DELIM s1 = q :: t1 := by
    cases hocc : occurrences RELEASE_DELIM s1 with
    | nil => rw [hocc] at hshift; simp at hshift
    | cons q t1 => exact ⟨q, t1, rfl⟩
  rw [hq] at hshift
  simp only [List.map_cons, List.cons.injEq] at hshift
  obtain ⟨hq0, ht⟩ := hshift
  have hq0 : q = 0 := by omega
  subst hq0
  have hsw : startsWith RELEASE_DELIM s1 = true := by
    have := findSub_startsWith hhead
    simpa [hs1] using this
  have hlen : 4 ≤ s1.length := by
    have := startsWith_length hsw
    simpa [RELEASE_DELIM] using this
  cases hcs : s1 with
  | nil => rw [hcs] at hlen; simp at hlen
  | cons c ss =>
    rw [hcs] at hq hsw
    rw [occurrences_cons, if_pos hsw] at hq
    simp only [List.cons.injEq] at hq
    obtain ⟨-, ht1⟩ := hq
    have hstr : ∀ j, j < 3 → startsWith RELEASE_DELIM (ss.drop j) = false := by
      intro j hj
      have hno := delim_no_overlap (p := 0) (j := j + 1)
        (s := s1) (by simpa [hcs] using hsw) (by omega) (by omega)
      simpa [hcs] using hno
    have hss := occurrences_shift RELEASE_DELIM 3 ss hstr
    have hdrop : ss.drop 3 = s.drop (p + 4) := by
      have h1 : ss.drop 3 = s1.drop 4 := by
        rw [hcs]
        rfl
      rw [h1, hs1, List.drop_drop]
    rw [hss, hdrop] at ht1
    rw [← ht1] at ht
    rw [ht]
    simp only [List.map_map]
    congr 1
    funext x
    show x + 3 + 1 + p = x + (p + 4)
    omega

/-- A document whose occurrence list starts `p0 :: p1 :: _` has its first
boundary at `p0` and, rescanning after it, its second at `p1`. -/
theorem occurrences_two {s : List Char} {p0 p1 : Nat} {rest : List Nat}
    (h : occurrences RELEASE_DELIM s = p0 :: p1 :: rest) :
    findSub RELEASE_DELIM s = some p0 ∧
      findSub RELEASE_DELIM (s.drop (p0 + 4)) = some (p1 - (p0 + 4)) ∧
      p0 + 4 ≤ p1 := by
  have hhead : findSub RELEASE_DELIM s = some p0 := by
    rw [← occurrences_head, h]
    rfl
  have ht := occurrences_tail h
  obtain ⟨q, rest2, hq⟩ : ∃ q rest2,
      occurrences RELEASE_DELIM (s.drop (p0 + 4)) = q :: rest2 := by
    cases hocc : occurrences RELEASE_DELIM (s.drop (p0 + 4)) with
    | nil => rw [hocc] at ht; simp at ht
    | cons q rest2 => exact ⟨q, rest2, rfl⟩
  rw [hq] at ht
  simp only [List.map_cons, List.cons.injEq] at ht
  obtain ⟨hp1, -⟩ := ht
  have hfs2 : findSub RELEASE_DELIM (s.drop (p0 + 4)) = some q := by
    rw [← occurrences_head, hq]
    rfl
  refine ⟨hhead, ?_, by omega⟩
  rw [hfs2]
  congr 1
  omega

theorem RELEASE_DELIM_ne_nil : RELEASE_DELIM ≠ [] := by decide

/-- Embeds `get_latest_release_notes`: the body of the HTTP response is the
parameter `body`, and the function returns `body.split("\n## ")[1]`; the
Python indexing raises `IndexError` when the split has fewer than two
segments. -/
def get_latest_release_notes (body : List Char) : Except Err (List Char) :=
  match (pySplit RELEASE_DELIM body)[1]? with
  | some seg => Except.ok seg
  | none => Except.error Err.indexError

/-- Python `dict` lookup on an association list (first match wins; the
insertion discipline below keeps keys unique, as a Python dict does). -/
def assocGet {κ ν : Type} [DecidableEq κ] : List (κ × ν) → κ → Option ν
  | [], _ => none
  | (k1, v) :: rest, k => if k1 = k then some v else assocGet rest k

/-- Python `d[k] = v` on a dict represented as an association list:
replace the value in place when the key is present, append otherwise. -/
def assocInsert {κ ν : Type} [DecidableEq κ] :
    List (κ × ν) → κ → ν → List (κ × ν)
  | [], k, v => [(k, v)]
  | (k1, v1) :: rest, k, v =>
    if k1 = k then (k1, v) :: rest else (k1, v1) :: assocInsert rest k v

/-- Embeds `tool_map = {"latest_prefect_version": get_latest_release_notes}`,
parameterized by the release-notes document the handler will fetch. -/
def tool_map (doc : List Char) :
    List (String × (Unit → Except Err (List Char))) :=
  [("latest_prefect_version", fun _ => get_latest_release_notes doc)]

/-- Embeds `get_info`: the `try` block covers both the `tool_map[topic]`
lookup and the (possibly awaited) handler invocation, and `except KeyError`
re-raises as `ValueError(f"Invalid topic: {topic}")`.  Generic over the
handler result type and the handler mapping, mirroring the dispatcher. -/
def get_info {α : Type} (handlers : List (String × (Unit → Except Err α)))
    (topic : String) : Except Err α :=
  let body : Except Err α :=
    match assocGet handlers topic with
    | none => Except.error Err.keyError
    | some h => h ()
  match body with
  | Except.error Err.keyError =>
      Except.error (Err.valueError ("Invalid topic: " ++ topic))
  | r => r

/-- Python truthiness of the `tpuf.api_key` slot: `None` and `""` are falsy,
every other string is truthy. -/
def pyTruthy : Option String → Bool
  | none => false
  | some s => !s.isEmpty

/-- Embeds the shared body of `search_prefect_2x_docs` and
`search_prefect_3x_docs`: when the module-level `tpuf.api_key` slot is falsy,
load the secret into it, then delegate to `multi_query_tpuf`.  `secret` is the
value `(await Secret.load("tpuf-api-key")).get()` would produce, `backend`
models `multi_query_tpuf` reading the current `tpuf.api_key`.  Returns the
backend's text, the new `tpuf.api_key` slot, and how many times the secret
store was hit during the call (0 or 1). -/
def searchDocs (secret : String)
    (backend : List String → String → Option String → String)
    (ns : String) (queries : List String) (api_key : Option String) :
    String × Option String × Nat :=
  if pyTruthy api_key then (backend queries ns api_key, api_key, 0)
  else (backend queries ns (some secret), some secret, 1)

/-- Embeds `search_prefect_2x_docs` (namespace literal "prefect-2"). -/
def search_prefect_2x_docs (secret : String)
    (backend : List String → String → Option String → String)
    (queries : List String) (api_key : Option String) :
    String × Option String × Nat :=
  searchDocs secret backend "prefect-2" queries api_key

/-- Embeds `search_prefect_3x_docs` (namespace literal "prefect-3"). -/
def search_prefect_3x_docs (secret : String)
    (backend : List String → String → Option String → String)
    (queries : List String) (api_key : Option String) :
    String × Option String × Nat :=
  searchDocs secret backend "prefect-3" queries api_key

/-- One entry of the example manifest.  Both JSON fields may be absent:
`item.get("description")` / `item.get("relative_path")` then yield Python
`None`, modelled as `none`. -/
structure ExampleEntry where
  description : Option String
  relative_path : Option String

/-- One category of the example manifest; `category.get("examples", [])`
defaults a missing key to the empty list. -/
structure ExampleCategory where
  examples : Option (List ExampleEntry)

/-- The parsed `views/README.json` manifest;
`response.json().get("categories", [])` defaults a missing key to `[]`. -/
structure Manifest where
  categories : Option (List ExampleCategory)

/-- The `(description, relative_path)` pairs in the iteration order of the
dict comprehension in `get_prefect_code_example`: all examples of all
categories, missing `categories`/`examples` keys defaulting to `[]`. -/
def manifestPairs (m : Manifest) : List (Option String × Option String) :=
  ((m.categories.getD []).flatMap (fun c => c.examples.getD [])).map
    (fun it => (it.description, it.relative_path))

/-- The dict built by the comprehension
`{item.get("description"): item.get("relative_path") for ... for ...}`:
the pairs of `manifestPairs` inserted left to right into an (initially empty)
Python dict. -/
def flattenManifest (m : Manifest) : List (Option String × Option String) :=
  (manifestPairs m).foldl (fun d p => assocInsert d p.1 p.2) []

/-- The fixed base URL of `get_prefect_code_example`. -/
def base_url : String :=
  "https://raw.githubusercontent.com/zzstoatzz/prefect-code-examples/main"

/-- Python f-string interpolation of an `Optional[str]` value
(`f"{None}"` is the text "None"). -/
def pyFormatOpt : Option String → String
  | none => "None"
  | some s => s

/-- Embeds `get_prefect_code_example`.  `manifest` is the parsed
`{base_url}/views/README.json` response, `classify` models
`marvin.classify_async` (free text plus the dict-key label list, in dict
order), `fetchFile` models `client.get(...).text` on the example link.
Besides the Python return value (or exception) it returns the list of URLs
fetched, in order, so theorems can speak about what was downloaded. -/
def get_prefect_code_example (manifest : Manifest)
    (classify : String → List (Option String) → Option String)
    (fetchFile : String → String) (related_to : String) :
    Except Err String × List String :=
  let example_items := flattenManifest manifest
  let key := classify related_to (example_items.map Prod.fst)
  match assocGet example_items key with
  | none => (Except.error Err.keyError, [base_url ++ "/views/README.json"])
  | some path =>
    let best_link := base_url ++ "/" ++ pyFormatOpt path
    let content := fetchFile best_link
    (Except.ok ("LINK:\n" ++ best_link ++ "\n\n EXAMPLE:\n" ++ content),
      [base_url ++ "/views/README.json", best_link])

/-- Dispatching "latest_prefect_version" runs `get_latest_release_notes`
and returns its result unchanged: the handler raises at most `IndexError`,
which the dispatcher's `except KeyError` does not catch. -/
theorem get_info_latest (doc : List Char) :
    get_info (tool_map doc) "latest_prefect_version"
      = get_latest_release_notes doc := by
  cases hs : (pySplit RELEASE_DELIM doc)[1]? with
  | some seg =>
    have hg : get_latest_release_notes doc = Except.ok seg := by
      unfold get_latest_release_notes
      rw [hs]
    simp [get_info, tool_map, assocGet, hg]
  | none =>
    have hg : get_latest_release_notes doc = Except.error Err.indexError := by
      unfold get_latest_release_notes
      rw [hs]
    simp [get_info, tool_map, assocGet, hg]

/-- C2: for every topic absent from the handler mapping, `get_info` fails with
`ValueError ("Invalid topic: " ++ topic)` — the InvalidTopic error, message
containing the offending value.  The statement quantifies over every handler
mapping with the topic absent, so the result is independent of the handlers'
behaviour: no handler is invoked. -/
theorem C2_invalid_topic {α : Type}
    (handlers : List (String × (Unit → Except Err α))) (topic : String)
    (h : assocGet handlers topic = none) :
    get_info handlers topic
      = Except.error (Err.valueError ("Invalid topic: " ++ topic)) := by
  simp [get_info, h]

theorem C2_invalid_topic_witness :
    assocGet (tool_map []) "prefect_roadmap" = none ∧
    get_info (tool_map []) "prefect_roadmap"
      = Except.error (Err.valueError ("Invalid topic: " ++ "prefect_roadmap")) := by
  have h : assocGet (tool_map []) "prefect_roadmap" = none := by
    simp [tool_map, assocGet]
  exact ⟨h, C2_invalid_topic _ _ h⟩

/-- C10: because the dispatcher's `try` block encloses the handler invocation
and its `await`, a `KeyError` raised inside a registered handler of a valid
topic is caught by `get_info` and re-raised as
`ValueError ("Invalid topic: " ++ topic)`, not propagated unmodified. -/
theorem C10_handler_keyerror_masked {α : Type}
    (handlers : List (String × (Unit → Except Err α))) (topic : String)
    (h : Unit → Except Err α) (hfound : assocGet handlers topic = some h)
    (hrun : h () = Except.error Err.keyError) :
    get_info handlers topic
      = Except.error (Err.valueError ("Invalid topic: " ++ topic)) := by
  simp [get_info, hfound, hrun]

theorem C10_handler_keyerror_masked_witness :
    get_info [("latest_prefect_version",
        fun _ : Unit => (Except.error Err.keyError : Except Err String))]
      "latest_prefect_version"
      = Except.error (Err.valueError ("Invalid topic: "
          ++ "latest_prefect_version")) := by
  exact C10_handler_keyerror_masked _ "latest_prefect_version"
    (fun _ => Except.error Err.keyError) (by simp [assocGet]) rfl

/-- C1 counterexample: a body with exactly one occurrence of "\n## " (so at
most one, as in the claim's hypothesis) on which the release-notes fetch,
reached through `get_info "latest_prefect_version"`, does not fail: it
returns the text after the single delimiter. -/
theorem C1_counterexample :
    (occurrences RELEASE_DELIM ['\n', '#', '#', ' ', 'A']).length ≤ 1 ∧
    get_info (tool_map ['\n', '#', '#', ' ', 'A']) "latest_prefect_version"
      = Except.ok ['A'] := by
  constructor
  · decide
  · rw [get_info_latest]
    unfold get_latest_release_notes
    rw [pySplit_some RELEASE_DELIM_ne_nil
      (show findSub RELEASE_DELIM ['\n', '#', '#', ' ', 'A'] = some 0 by decide)]
    rw [pySplit_none RELEASE_DELIM_ne_nil
      (show findSub RELEASE_DELIM
        (List.drop (0 + RELEASE_DELIM.length) ['\n', '#', '#', ' ', 'A'])
        = none by decide)]
    rfl

/-- C1 (amended): for a body with zero occurrences of "\n## " the fetch fails
with the IndexError-equivalent; with exactly one occurrence, at position `p`,
it does not fail: Python's split then has two segments and the fetch returns
everything after the delimiter. -/
theorem C1_release_notes_few_delims (doc : List Char) :
    (occurrences RELEASE_DELIM doc = [] →
      get_info (tool_map doc) "latest_prefect_version"
        = Except.error Err.indexError) ∧
    (∀ p, occurrences RELEASE_DELIM doc = [p] →
      get_info (tool_map doc) "latest_prefect_version"
        = Except.ok (doc.drop (p + 4))) := by
  constructor
  · intro h
    have hf : findSub RELEASE_DELIM doc = none := by
      rw [← occurrences_head, h]
      rfl
    rw [get_info_latest]
    unfold get_latest_release_notes
    rw [pySplit_none RELEASE_DELIM_ne_nil hf]
    rfl
  · intro p h
    have hf : findSub RELEASE_DELIM doc = some p := by
      rw [← occurrences_head, h]
      rfl
    have ht := occurrences_tail h
    have hocc2 : occurrences RELEASE_DELIM (doc.drop (p + 4)) = [] := by
      cases hocc : occurrences RELEASE_DELIM (doc.drop (p + 4)) with
      | nil => rfl
      | cons q rest =>
        rw [hocc] at ht
        simp at ht
    have hf2 : findSub RELEASE_DELIM (doc.drop (p + 4)) = none := by
      rw [← occurrences_head, hocc2]
      rfl
    rw [get_info_latest]
    unfold get_latest_release_notes
    rw [pySplit_some RELEASE_DELIM_ne_nil hf]
    simp only [show RELEASE_DELIM.length = 4 from rfl]
    rw [pySplit_none RELEASE_DELIM_ne_nil hf2]
    rfl

theorem C1_release_notes_few_delims_witness :
    occurrences RELEASE_DELIM ['a', 'b'] = [] ∧
    get_info (tool_map ['a', 'b']) "latest_prefect_version"
      = Except.error Err.indexError ∧
    occurrences RELEASE_DELIM ['\n', '#', '#', ' ', 'B'] = [0] ∧
    get_info (tool_map ['\n', '#', '#', ' ', 'B']) "latest_prefect_version"
      = Except.ok ['B'] := by
  refine ⟨by decide, (C1_release_notes_few_delims ['a', 'b']).1 (by decide),
    by decide, ?_⟩
  exact (C1_release_notes_few_delims ['\n', '#', '#', ' ', 'B']).2 0 (by decide)

/-- C5: for every document whose ascending list of "\n## " occurrence
positions starts with `p0` and `p1`, `get_info "latest_prefect_version"`
returns exactly the text lying strictly between the end of the first
delimiter occurrence and the start of the second. -/
theorem C5_release_notes_section (doc : List Char) (p0 p1 : Nat)
    (rest : List Nat)
    (h : occurrences RELEASE_DELIM doc = p0 :: p1 :: rest) :
    get_info (tool_map doc) "latest_prefect_version"
      = Except.ok ((doc.drop (p0 + 4)).take (p1 - (p0 + 4))) := by
  obtain ⟨h0, h1, hle⟩ := occurrences_two h
  rw [get_info_latest]
  unfold get_latest_release_notes
  rw [pySplit_some RELEASE_DELIM_ne_nil h0]
  simp only [show RELEASE_DELIM.length = 4 from rfl]
  rw [pySplit_some RELEASE_DELIM_ne_nil h1]
  simp

theorem C5_release_notes_section_witness :
    occurrences RELEASE_DELIM
      ['\n', '#', '#', ' ', 'A', '\n', '#', '#', ' ', 'B'] = [0, 5] ∧
    get_info (tool_map ['\n', '#', '#', ' ', 'A', '\n', '#', '#', ' ', 'B'])
      "latest_prefect_version" = Except.ok ['A'] := by
  refine ⟨by decide, ?_⟩
  exact C5_release_notes_section
    ['\n', '#', '#', ' ', 'A', '\n', '#', '#', ' ', 'B'] 0 5 [] (by decide)

/-- C3: for every secret, stub backend, non-empty query set and initial
credential slot, each search tool passes exactly the given queries and its
fixed namespace literal to the backend and returns the backend's output
unmodified; both tools are the same `searchDocs` instantiated at their
namespace literal, hence otherwise identical. -/
theorem C3_search_delegates (secret : String)
    (backend : List String → String → Option String → String)
    (queries : List String) (api_key : Option String) (hq : queries ≠ []) :
    (search_prefect_2x_docs secret backend queries api_key).1
      = backend queries "prefect-2"
          (if pyTruthy api_key then api_key else some secret) ∧
    (search_prefect_3x_docs secret backend queries api_key).1
      = backend queries "prefect-3"
          (if pyTruthy api_key then api_key else some secret) ∧
    search_prefect_2x_docs secret backend queries api_key
      = searchDocs secret backend "prefect-2" queries api_key ∧
    search_prefect_3x_docs secret backend queries api_key
      = searchDocs secret backend "prefect-3" queries api_key := by
  refine ⟨?_, ?_, rfl, rfl⟩ <;>
    cases h : pyTruthy api_key <;>
      simp [search_prefect_2x_docs, search_prefect_3x_docs, searchDocs, h]

theorem C3_search_delegates_witness :
    ["task run"] ≠ ([] : List String) ∧
    (search_prefect_2x_docs "sk" (fun qs ns _ => String.intercalate ";" qs ++ ns)
        ["task run"] none).1
      = (fun (qs : List String) (ns : String) (_ : Option String) =>
          String.intercalate ";" qs ++ ns) ["task run"] "prefect-2"
          (if pyTruthy none then none else some "sk") ∧
    (search_prefect_3x_docs "sk" (fun qs ns _ => String.intercalate ";" qs ++ ns)
        ["task run"] none).1
      = (fun (qs : List String) (ns : String) (_ : Option String) =>
          String.intercalate ";" qs ++ ns) ["task run"] "prefect-3"
          (if pyTruthy none then none else some "sk") := by
  refine ⟨by simp, ?_, ?_⟩
  · exact (C3_search_delegates "sk" _ ["task run"] none (by simp)).1
  · exact (C3_search_delegates "sk" _ ["task run"] none (by simp)).2.1

/-- C7 counterexample: with an empty-string credential in the secret store,
two identical calls in a fresh process (`tpuf.api_key = None`) each hit the
secret store — the cached slot is falsy after the first write — so the
credential is fetched twice, not at most once, although the outputs of the
two calls still coincide. -/
theorem C7_counterexample :
    (search_prefect_2x_docs "" (fun _ _ _ => "result") ["q"] none).2.2
      + (search_prefect_2x_docs "" (fun _ _ _ => "result") ["q"]
          (search_prefect_2x_docs "" (fun _ _ _ => "result") ["q"] none).2.1).2.2
      = 2 ∧
    (search_prefect_2x_docs "" (fun _ _ _ => "result") ["q"] none).1
      = (search_prefect_2x_docs "" (fun _ _ _ => "result") ["q"]
          (search_prefect_2x_docs "" (fun _ _ _ => "result") ["q"] none).2.1).1 := by
  constructor <;> rfl

/-- C7 (amended): two identical calls against a deterministic stub backend
return identical output; and provided the stored credential is truthy (a
non-empty string), the secret is fetched exactly once across the two calls
started from the fresh `None` slot.  (An empty-string credential is falsy in
the `if not tpuf.api_key` guard and is re-fetched on every call.) -/
theorem C7_search_idempotent_cached (secret : String)
    (backend : List String → String → Option String → String)
    (queries : List String) (ns : String) (hs : secret ≠ "") :
    (searchDocs secret backend ns queries none).1
      = (searchDocs secret backend ns queries
          (searchDocs secret backend ns queries none).2.1).1 ∧
    (searchDocs secret backend ns queries none).2.2
      + (searchDocs secret backend ns queries
          (searchDocs secret backend ns queries none).2.1).2.2 = 1 := by
  have h1 : searchDocs secret backend ns queries none
      = (backend queries ns (some secret), some secret, 1) := by
    simp [searchDocs, pyTruthy]
  have hkey : pyTruthy (some secret) = true := by
    simp [pyTruthy, Bool.eq_false_iff, ne_eq, String.isEmpty_iff, hs]
  have h2 : searchDocs secret backend ns queries (some secret)
      = (backend queries ns (some secret), some secret, 0) := by
    simp [searchDocs, hkey]
  rw [h1]
  simp [h2]

theorem C7_search_idempotent_cached_witness :
    (searchDocs "sk" (fun _ _ _ => "result") "prefect-2" ["q"] none).1
      = (searchDocs "sk" (fun _ _ _ => "result") "prefect-2" ["q"]
          (searchDocs "sk" (fun _ _ _ => "result") "prefect-2" ["q"] none).2.1).1 ∧
    (searchDocs "sk" (fun _ _ _ => "result") "prefect-2" ["q"] none).2.2
      + (searchDocs "sk" (fun _ _ _ => "result") "prefect-2" ["q"]
          (searchDocs "sk" (fun _ _ _ => "result") "prefect-2" ["q"] none).2.1).2.2
      = 1 := by
  exact C7_search_idempotent_cached "sk" _ ["q"] "prefect-2" (by decide)

theorem assocGet_append {κ ν : Type} [DecidableEq κ] (a b : List (κ × ν))
    (k : κ) :
    assocGet (a ++ b) k
      = match assocGet a k with
        | some v => some v
        | none => assocGet b k := by
  induction a with
  | nil => simp [assocGet]
  | cons p rest ih =>
    obtain ⟨k1, v1⟩ := p
    by_cases h : k1 = k
    · simp [assocGet, h]
    · simp [assocGet, h, ih]

theorem assocGet_insert {κ ν : Type} [DecidableEq κ] (d : List (κ × ν))
    (k k2 : κ) (v : ν) :
    assocGet (assocInsert d k v) k2
      = if k = k2 then some v else assocGet d k2 := by
  induction d with
  | nil => simp [assocInsert, assocGet]
  | cons p rest ih =>
    obtain ⟨k1, v1⟩ := p
    by_cases h1 : k1 = k
    · subst h1
      by_cases h2 : k1 = k2 <;> simp [assocInsert, assocGet, h2]
    · by_cases h2 : k1 = k2
      · subst h2
        have hk : ¬ k = k1 := fun hh => h1 hh.symm
        simp [assocInsert, assocGet, h1, hk]
      · simp [assocInsert, assocGet, h1, h2, ih]

theorem assocGet_foldl {κ ν : Type} [DecidableEq κ] (ps : List (κ × ν)) :
    ∀ (d : List (κ × ν)) (k : κ),
      assocGet (ps.foldl (fun d p => assocInsert d p.1 p.2) d) k
        = match assocGet ps.reverse k with
          | some v => some v
          | none => assocGet d k := by
  induction ps with
  | nil =>
    intro d k
    simp [assocGet]
  | cons p rest ih =>
    intro d k
    simp only [List.foldl_cons, List.reverse_cons]
    rw [ih, assocGet_append]
    cases hr : assocGet rest.reverse k with
    | some v => rfl
    | none =>
      rw [assocGet_insert]
      obtain ⟨k1, v1⟩ := p
      by_cases h : k1 = k <;> simp [assocGet, h]

theorem assocGet_mem_values {κ ν : Type} [DecidableEq κ] {d : List (κ × ν)}
    {k : κ} {v : ν} (h : assocGet d k = some v) : v ∈ d.map Prod.snd := by
  induction d with
  | nil => simp [assocGet] at h
  | cons p rest ih =>
    obtain ⟨k1, v1⟩ := p
    by_cases h1 : k1 = k
    · simp [assocGet, h1] at h
      simp [h]
    · simp only [assocGet, if_neg h1] at h
      simp [ih h]

/-- Spec-side reading of the flattened mapping: look a description up in the
raw description→path pair list, resolving a duplicate description
last-write-wins, i.e. returning the value of the last matching pair
(`assocGet` takes the first match, so look up in the reversed list). -/
def lastWriteWins (ps : List (Option String × Option String))
    (k : Option String) : Option (Option String) :=
  assocGet ps.reverse k

/-- C9: the dict built by the flattening comprehension maps each description
to the `relative_path` of the last example carrying it across all examples of
all categories (last-write-wins), and missing `categories`/`examples` keys
default to the empty list without failing: a manifest without `categories`
flattens exactly like one with `[]`, and a category without `examples`
contributes nothing. -/
theorem C9_flatten_lww (m : Manifest) (k : Option String) :
    assocGet (flattenManifest m) k = lastWriteWins (manifestPairs m) k ∧
    flattenManifest ⟨none⟩ = flattenManifest ⟨some []⟩ ∧
    ∀ cats, flattenManifest ⟨some (⟨none⟩ :: cats)⟩
      = flattenManifest ⟨some cats⟩ := by
  refine ⟨?_, rfl, fun cats => rfl⟩
  unfold flattenManifest lastWriteWins
  rw [assocGet_foldl]
  cases assocGet (manifestPairs m).reverse k <;> simp [assocGet]

/-- The concrete manifest of the spec's §8.7 scenario:
one category, one example, description "retry a flow",
relative path "examples/retry.py". -/
def retryManifest : Manifest :=
  ⟨some [⟨some [⟨some "retry a flow", some "examples/retry.py"⟩]⟩]⟩

/-- The §8.7 classifier stub: always answer "retry a flow". -/
def retryClassify : String → List (Option String) → Option String :=
  fun _ _ => some "retry a flow"

/-- The §8.7 file-fetch stub: every URL yields the text "CONTENT". -/
def retryFetch : String → String := fun _ => "CONTENT"

/-- C4 counterexample: in the §8.7 scenario the returned string is not of the
claimed exact shape `"LINK:\n" ++ url ++ "\n\nEXAMPLE:\n" ++ content` — the
code emits a space between the blank line and "EXAMPLE:". -/
theorem C4_counterexample :
    (get_prefect_code_example retryManifest retryClassify retryFetch
        "how do I retry a failed flow").1
      = Except.ok ("LINK:\n" ++ (base_url ++ "/" ++ "examples/retry.py")
          ++ "\n\n EXAMPLE:\n" ++ "CONTENT") ∧
    "LINK:\n" ++ (base_url ++ "/" ++ "examples/retry.py")
        ++ "\n\n EXAMPLE:\n" ++ "CONTENT"
      ≠ "LINK:\n" ++ (base_url ++ "/" ++ "examples/retry.py")
          ++ "\n\nEXAMPLE:\n" ++ "CONTENT" := by
  constructor
  · rfl
  · decide

/-- C4 (amended): every successful `get_prefect_code_example` run returns
exactly a "LINK:" line, the resolved URL, a blank line, a line reading
" EXAMPLE:" — with the leading space the code writes after the blank line —
then the fetched content of that URL. -/
theorem C4_output_format (manifest : Manifest)
    (classify : String → List (Option String) → Option String)
    (fetchFile : String → String) (related_to : String) (r : String)
    (h : (get_prefect_code_example manifest classify fetchFile related_to).1
        = Except.ok r) :
    ∃ link, r = "LINK:\n" ++ link ++ "\n\n EXAMPLE:\n" ++ fetchFile link := by
  simp only [get_prefect_code_example] at h
  cases hg : assocGet (flattenManifest manifest)
      (classify related_to ((flattenManifest manifest).map Prod.fst)) with
  | none =>
    rw [hg] at h
    simp at h
  | some path =>
    rw [hg] at h
    simp only [Except.ok.injEq] at h
    exact ⟨base_url ++ "/" ++ pyFormatOpt path, h.symm⟩

theorem C4_output_format_witness :
    (get_prefect_code_example retryManifest retryClassify retryFetch
        "how do I retry a failed flow").1
      = Except.ok ("LINK:\n" ++ (base_url ++ "/" ++ "examples/retry.py")
          ++ "\n\n EXAMPLE:\n" ++ "CONTENT") ∧
    ∃ link, "LINK:\n" ++ (base_url ++ "/" ++ "examples/retry.py")
        ++ "\n\n EXAMPLE:\n" ++ "CONTENT"
      = "LINK:\n" ++ link ++ "\n\n EXAMPLE:\n" ++ retryFetch link := by
  refine ⟨rfl, ?_⟩
  exact C4_output_format retryManifest retryClassify retryFetch
    "how do I retry a failed flow" _ rfl

/-- C6: whenever the classifier returns a label that is not a key of the
flattened mapping, `get_prefect_code_example` fails with the distinct
dict-lookup error (`KeyError`) and downloads nothing beyond the manifest —
no example URL is constructed or fetched. -/
theorem C6_classification_mismatch (manifest : Manifest)
    (classify : String → List (Option String) → Option String)
    (fetchFile : String → String) (related_to : String)
    (h : assocGet (flattenManifest manifest)
        (classify related_to ((flattenManifest manifest).map Prod.fst))
        = none) :
    get_prefect_code_example manifest classify fetchFile related_to
      = (Except.error Err.keyError, [base_url ++ "/views/README.json"]) := by
  simp only [get_prefect_code_example]
  rw [h]

theorem C6_classification_mismatch_witness :
    assocGet (flattenManifest retryManifest) (some "nope") = none ∧
    get_prefect_code_example retryManifest (fun _ _ => some "nope") retryFetch
        "how do I retry a failed flow"
      = (Except.error Err.keyError, [base_url ++ "/views/README.json"]) := by
  refine ⟨by decide, ?_⟩
  exact C6_classification_mismatch retryManifest (fun _ _ => some "nope")
    retryFetch "how do I retry a failed flow" (by decide)

/-- C8: a successful `get_prefect_code_example` run only downloads, besides
the manifest, a link built from a path that is a value of the flattened
mapping; and when the manifest flattens to the empty mapping the classifier
is offered the empty label list and the call fails with the lookup error
instead of returning a link. -/
theorem C8_link_safety (manifest : Manifest)
    (classify : String → List (Option String) → Option String)
    (fetchFile : String → String) (related_to : String) :
    (∀ r, (get_prefect_code_example manifest classify fetchFile related_to).1
        = Except.ok r →
      ∃ path, path ∈ (flattenManifest manifest).map Prod.snd ∧
        (get_prefect_code_example manifest classify fetchFile related_to).2
          = [base_url ++ "/views/README.json",
              base_url ++ "/" ++ pyFormatOpt path]) ∧
    (flattenManifest manifest = [] →
      (flattenManifest manifest).map Prod.fst = [] ∧
      get_prefect_code_example manifest classify fetchFile related_to
        = (Except.error Err.keyError, [base_url ++ "/views/README.json"])) := by
  constructor
  · intro r h
    cases hg : assocGet (flattenManifest manifest)
        (classify related_to ((flattenManifest manifest).map Prod.fst)) with
    | none =>
      simp only [get_prefect_code_example] at h
      rw [hg] at h
      simp at h
    | some path =>
      refine ⟨path, assocGet_mem_values hg, ?_⟩
      simp only [get_prefect_code_example]
      rw [hg]
  · intro hflat
    refine ⟨by rw [hflat]; rfl, ?_⟩
    simp only [get_prefect_code_example]
    rw [hflat]
    rfl

theorem C8_link_safety_witness :
    (∃ path, path ∈ (flattenManifest retryManifest).map Prod.snd ∧
      (get_prefect_code_example retryManifest retryClassify retryFetch
          "how do I retry a failed flow").2
        = [base_url ++ "/views/README.json",
            base_url ++ "/" ++ pyFormatOpt path]) ∧
    ((flattenManifest ⟨none⟩).map Prod.fst = [] ∧
      get_prefect_code_example ⟨none⟩ retryClassify retryFetch "anything"
        = (Except.error Err.keyError, [base_url ++ "/views/README.json"])) := by
  constructor
  · exact (C8_link_safety retryManifest retryClassify retryFetch
      "how do I retry a failed flow").1 _ rfl
  · exact (C8_link_safety ⟨none⟩ retryClassify retryFetch "anything").2 rfl

end Marvin
